import Mathlib

/-!
Verification development for the OpenAI-API repository's rate-governance core
(`app/core/ai_gateway.py` and `app/core/openai_client.py`).

The Python source is shallowly embedded: module-level mutable state
(`_sems`, the limiter's per-identity `MemoryListBucket`s) becomes an explicit
`GatewayState` record threaded through the gateway function; exceptions become
explicit outcome constructors; Python floats are modelled as rationals (the
computations involved — additions, comparisons, truncation to whole seconds —
are scale-insensitive, so the rational model is exact at the concrete inputs
used below); dictionaries become association lists keyed by strings.

The pinned third-party limiter (pyrate-limiter 3.9.0, `MemoryListBucket`) is
not part of the repository; it is modelled from its documented contract as the
gateway uses it: a per-identity list of admission timestamps over a trailing
60-second window, `delay=False` raising `BucketFullException` whose
`meta_info` carries a `reset_in` estimate (seconds until the oldest counted
request ages out), `delay=True` sleeping until a slot frees and then admitting.
-/

namespace AIGateway

/-! ## Association-list maps (Python `dict` keyed by `str`) -/

/-- Lookup in an association list, mirroring Python `d.get(k)`. -/
def alistGet {α : Type} (m : List (String × α)) (k : String) : Option α :=
  match m with
  | [] => none
  | (k', v) :: t => if k' = k then some v else alistGet t k

/-- `d[k] = v`: replace the binding for `k` if present, else append it. -/
def alistSet {α : Type} (m : List (String × α)) (k : String) (v : α) :
    List (String × α) :=
  match m with
  | [] => [(k, v)]
  | (k', v') :: t => if k' = k then (k', v) :: t else (k', v') :: alistSet t k v

/-! ## `OpenAIRateLimitError` (ai_gateway.py, lines 61–71)

```python
class OpenAIRateLimitError(HTTPException):
    def __init__(self, detail: str, retry_after: Optional[float] = None):
        headers: Dict[str, str] = {}
        if retry_after is not None and retry_after >= 0:
            # Round up to whole seconds for header
            headers["Retry-After"] = str(int(retry_after + 0.999))
        super().__init__(status_code=429, detail=detail, headers=headers)
```

`int()` on a non-negative float truncates, i.e. takes the floor.  The
`Retry-After` header is modelled by its numeric value (`none` = header absent).
-/

structure OpenAIRateLimitError where
  status_code : Nat
  detail : String
  retryAfterHeader : Option ℤ
  deriving Repr, DecidableEq

/-- The header value computed by `OpenAIRateLimitError.__init__`:
present exactly when `retry_after` is given and non-negative, with value
`int(retry_after + 0.999)` (floor, since the argument is non-negative there). -/
def retryAfterValue (retry_after : Option ℚ) : Option ℤ :=
  match retry_after with
  | none => none
  | some r => if 0 ≤ r then some ⌊r + 999/1000⌋ else none

/-- `OpenAIRateLimitError(detail, retry_after)`. -/
def mkRateLimitError (detail : String) (retry_after : Option ℚ) :
    OpenAIRateLimitError :=
  { status_code := 429, detail := detail, retryAfterHeader := retryAfterValue retry_after }

/-! ## The defensive `meta_info` parse (ai_gateway.py, lines 163–171)

```python
reset_in: Optional[float] = None
try:
    meta = getattr(e, "meta_info", {}) or {}
    if "reset_in" in meta:
        reset_in = float(meta["reset_in"])
except Exception:
    pass
```

The input is modelled as `Option (Option ℚ)`: `none` means `"reset_in"` is
absent from `meta_info`, `some none` means it is present but `float()` raises
(the `except` clause swallows the error, leaving `reset_in = None`), and
`some (some r)` means it parses to `r`. -/

def parseResetIn (meta : Option (Option ℚ)) : Option ℚ :=
  match meta with
  | none => none
  | some none => none
  | some (some r) => some r

/-! ## JSON values and `extract_text_from_response` (openai_client.py, lines 19–38)

Python values flowing through `resp.json()` are JSON-shaped; they are embedded
as `JValue`.  A Python `dict` is an association list; `d.get(k)` yields `null`
both for a missing key and for a stored `None`, which is faithful to the
`isinstance` guards in the source (`None` fails every `isinstance` check the
function performs).  `str()` applied to a number or container is abstracted
(`numRepr`/list/dict reprs are not probed by any property below); on strings it
is the identity, as in Python. -/

inductive JValue : Type
  | null : JValue
  | bool : Bool → JValue
  | num : ℚ → JValue
  | str : String → JValue
  | arr : List JValue → JValue
  | obj : List (String × JValue) → JValue

/-- Python `d.get(k)`: the stored value, or `None` when absent. -/
def jget (fields : List (String × JValue)) (k : String) : JValue :=
  (alistGet fields k).getD .null

/-- Python `str(v)` on the values the extractor can meet.  Container and
numeric representations are abstracted placeholders; no claim depends on
them. -/
def pyStr : JValue → String
  | .str s => s
  | .null => "None"
  | .bool true => "True"
  | .bool false => "False"
  | .num q => toString q
  | .arr _ => "<list repr>"
  | .obj _ => "<dict repr>"

/-- The Python exceptions `extract_text_from_response` can raise. -/
inductive PyError : Type
  | keyError (msg : String)
  | attributeError
  | typeError
  deriving DecidableEq, Repr

/-- Python iteration `for item in v`: lists yield their elements, strings
their characters, dicts their keys; other values raise `TypeError`. -/
def iterElems : JValue → Except PyError (List JValue)
  | .arr xs => .ok xs
  | .str s => .ok (s.data.map (fun c => JValue.str (String.singleton c)))
  | .obj fields => .ok (fields.map (fun p => JValue.str p.1))
  | _ => .error .typeError

/-- The inner loop over `content` blocks:

```python
for c in content:
    if isinstance(c, dict) and c.get("type") in ("output_text", "text"):
        tv = c.get("text")
        if isinstance(tv, str): return tv
        if isinstance(tv, dict) and "value" in tv: return str(tv["value"])
```
-/
def findInContent : List JValue → Option String
  | [] => none
  | c :: rest =>
    match c with
    | .obj cf =>
      match jget cf "type" with
      | .str ty =>
        if ty = "output_text" ∨ ty = "text" then
          match jget cf "text" with
          | .str tv => some tv
          | .obj tvf =>
            match alistGet tvf "value" with
            | some v => some (pyStr v)
            | none => findInContent rest
          | _ => findInContent rest
        else findInContent rest
      | _ => findInContent rest
    | _ => findInContent rest

/-- The outer loop body over `data.get("output", [])` items.  A non-dict item
hits `item.get("content")` and raises `AttributeError`. -/
def extractFromItems : List JValue → Except PyError String
  | [] => .error (.keyError "No text found in response payload")
  | item :: rest =>
    match item with
    | .obj itemf =>
      let fromContent : Option String :=
        match jget itemf "content" with
        | .arr cs => findInContent cs
        | _ => none
      match fromContent with
      | some s => .ok s
      | none =>
        match jget itemf "text" with
        | .str s => .ok s
        | .obj tf =>
          match alistGet tf "value" with
          | some v => .ok (pyStr v)
          | none => extractFromItems rest
        | _ => extractFromItems rest
    | _ => .error .attributeError

/-- `extract_text_from_response(data)` (openai_client.py, lines 19–38). -/
def extract_text_from_response (data : List (String × JValue)) :
    Except PyError String :=
  match jget data "output_text" with
  | .str s => .ok s
  | _ =>
    match jget data "content" with
    | .str s => .ok s
    | _ =>
      let out : JValue :=
        match alistGet data "output" with
        | none => JValue.arr []
        | some v => v
      match iterElems out with
      | .error e => .error e
      | .ok items => extractFromItems items

/-! ### Spec-side matcher for the "known response shapes"

`respHasKnownTextShape` is written from the specification's description of the
shapes ("a direct top-level text field, or nested content blocks"), to be
compared with what the source function actually does. -/

/-- A content block that yields text per the spec's shape list. -/
def blockYieldsText (c : JValue) : Bool :=
  match c with
  | .obj cf =>
    (match jget cf "type" with
     | .str ty => decide (ty = "output_text" ∨ ty = "text")
     | _ => false) &&
    (match jget cf "text" with
     | .str _ => true
     | .obj tvf => (alistGet tvf "value").isSome
     | _ => false)
  | _ => false

/-- An output item that yields text per the spec's shape list. -/
def itemYieldsText (item : JValue) : Bool :=
  match item with
  | .obj itemf =>
    (match jget itemf "content" with
     | .arr cs => cs.any blockYieldsText
     | _ => false) ||
    (match jget itemf "text" with
     | .str _ => true
     | .obj tf => (alistGet tf "value").isSome
     | _ => false)
  | _ => false

/-- Some known response shape matches: a direct top-level text field
(`output_text` or `content` holding a string) or a nested content block. -/
def respHasKnownTextShape (data : List (String × JValue)) : Bool :=
  (match jget data "output_text" with | .str _ => true | _ => false) ||
  (match jget data "content" with | .str _ => true | _ => false) ||
  (match alistGet data "output" with
   | none => false
   | some (.arr items) => items.any itemYieldsText
   | some _ => false)

/-- The well-formedness the source silently assumes on the `output` field:
absent, or a list whose members are all dicts. -/
def outputItemsAreDicts (data : List (String × JValue)) : Bool :=
  match alistGet data "output" with
  | none => true
  | some (.arr items) => items.all (fun i => match i with | .obj _ => true | _ => false)
  | some _ => false

/-! ## Gateway configuration and state (ai_gateway.py)

The three configuration values the gateway reads.  `OPENAI_MAX_CONCURRENCY_PER_KEY`
and `OPENAI_RPM_PER_KEY` are counts (the source guard `max_conc <= 0` collapses
to `= 0` on naturals). -/

structure Config where
  OPENAI_RPM_PER_KEY : Nat
  OPENAI_RPM_FAIL_FAST : Bool
  OPENAI_MAX_CONCURRENCY_PER_KEY : Nat
  deriving Repr

/-- The module-level mutable state of `ai_gateway.py`, made explicit:
`sems` is `_sems` (each `threading.Semaphore` represented by its number of
available permits); `buckets` holds the limiter's per-identity
`MemoryListBucket` contents (admission timestamps); `now` is the clock;
`llCalls` counts invocations of the low-level caller
(`app.core.openai_client.call_openai_api`). -/
structure GatewayState where
  sems : List (String × Nat)
  buckets : List (String × List ℚ)
  now : ℚ
  llCalls : Nat

/-- `_get_sem_for(api_key)` (ai_gateway.py, lines 104–117): returns the
available-permit count of the (possibly freshly created) semaphore for this
key, or `none` when concurrency limiting is disabled, together with the
updated `_sems` map. -/
def _get_sem_for (maxConc : Nat) (sems : List (String × Nat)) (api_key : String) :
    Option Nat × List (String × Nat) :=
  if maxConc = 0 then (none, sems)
  else
    match alistGet sems api_key with
    | some n => (some n, sems)
    | none => (some maxConc, alistSet sems api_key maxConc)

/-- Increment a stored counter (a `Semaphore.release`); the key is always
present when this is reached. -/
def alistIncr (m : List (String × Nat)) (k : String) : List (String × Nat) :=
  match m with
  | [] => []
  | (k', v) :: t => if k' = k then (k', v + 1) :: t else (k', v) :: alistIncr t k

/-- The available-slot count of a credential's gate as an observer would
measure it: the stored permit count, or full capacity when the semaphore has
not been created yet (no slot is in use then). -/
def semAvail (cfg : Config) (sems : List (String × Nat)) (k : String) : Nat :=
  (alistGet sems k).getD cfg.OPENAI_MAX_CONCURRENCY_PER_KEY

/-! ## The RPM limiter (pyrate-limiter 3.9.0, modelled from its documented
contract as the spec describes it: per-identity sliding 60-second window over
admission timestamps; `delay=False` raises `BucketFullException` carrying a
`reset_in` estimate — seconds until the oldest counted request ages out;
`delay=True` sleeps until a slot frees and then admits). -/

/-- Drop entries that have aged out of the trailing 60-second window. -/
def pruneWindow (now : ℚ) (items : List ℚ) : List ℚ :=
  items.filter (fun t => now - 60 < t)

/-- `BucketFullException`, reduced to the `meta_info` fields the gateway's
defensive parse looks at (see `parseResetIn`). -/
structure BucketFullException where
  meta_info : Option (Option ℚ)

/-- `limiter.ratelimit(api_key, delay=False)`: reject immediately when the
window is at capacity, else count the request. -/
def tryAcquire (rpm : Nat) (st : GatewayState) (key : String) :
    Except BucketFullException GatewayState :=
  let items := pruneWindow st.now ((alistGet st.buckets key).getD [])
  if rpm ≤ items.length then
    .error ⟨some (some (items.headD st.now + 60 - st.now))⟩
  else
    .ok { st with buckets := alistSet st.buckets key (items ++ [st.now]) }

/-- `limiter.ratelimit(api_key, delay=True)`: when the window is at capacity,
sleep until enough of the oldest entries age out, then admit; `none` models a
wait that can never end (capacity zero). -/
def blockAcquire (rpm : Nat) (st : GatewayState) (key : String) :
    Option GatewayState :=
  let items := pruneWindow st.now ((alistGet st.buckets key).getD [])
  if rpm ≤ items.length then
    if rpm = 0 then none
    else
      let k := items.length + 1 - rpm
      let now' := items.getD (k - 1) st.now + 60
      some { st with
             now := now'
             buckets := alistSet st.buckets key (items.drop k ++ [now']) }
  else
    some { st with buckets := alistSet st.buckets key (items ++ [st.now]) }

/-! ## Low-level caller (openai_client.py, lines 9–17)

The HTTP exchange (`requests.post` with the constructed payload) is abstracted
into its observable result; the function's control flow on that result is kept
exactly: any non-200 status raises
`RuntimeError(f"OpenAI API error {status}: {text}")`, a transport failure
raises the `requests` exception, a 200 returns the parsed JSON body. -/

inductive HttpResult : Type
  | response (status : Nat) (text : String) (body : List (String × JValue))
  | netError (msg : String)

/-- The exceptions `call_openai_api` can raise. -/
inductive LLError : Type
  | runtimeError (msg : String)
  | requestException (msg : String)

/-- `call_openai_api(...)` (openai_client.py, lines 9–17). -/
def call_openai_api (http : HttpResult) : Except LLError (List (String × JValue)) :=
  match http with
  | .netError m => .error (.requestException m)
  | .response status text body =>
    if status ≠ 200 then
      .error (.runtimeError ("OpenAI API error " ++ toString status ++ ": " ++ text))
    else .ok body

/-! ## The gateway façade (ai_gateway.py, lines 121–181) -/

/-- What one invocation of `call_openai_rate_limited` can end in.  `blocked`
marks a wait that cannot end in this sequential model (no other thread exists
to free a slot). -/
inductive GatewayOutcome : Type
  | ok (resp : List (String × JValue))
  | rateLimited (e : OpenAIRateLimitError)
  | llError (e : LLError)
  | blocked

def isBlocked : GatewayOutcome → Bool
  | .blocked => true
  | _ => false

/-- The 429 detail string (ai_gateway.py, lines 173–176). -/
def rpmDetail (rpm : Nat) : String :=
  "OpenAI RPM limit exceeded for API key. Configured limit: " ++
    toString rpm ++ "/minute."

/-- The body of the `with _limiter.ratelimit(...)` block: invoke the low-level
caller and convert its `Except` into an outcome, counting the invocation. -/
def invokeCaller (http : HttpResult) (st : GatewayState) :
    GatewayOutcome × GatewayState :=
  let st' := { st with llCalls := st.llCalls + 1 }
  match call_openai_api http with
  | .ok resp => (.ok resp, st')
  | .error e => (.llError e, st')

/-- The inner `try` of `call_openai_rate_limited` (lines 150–177): the limiter
step in the configured mode, the low-level call on admission, and the
`except BucketFullException` conversion to `OpenAIRateLimitError`. -/
def gatewayBody (cfg : Config) (http : HttpResult) (api_key : String)
    (st : GatewayState) : GatewayOutcome × GatewayState :=
  if cfg.OPENAI_RPM_FAIL_FAST then
    match tryAcquire cfg.OPENAI_RPM_PER_KEY st api_key with
    | .error e =>
      (.rateLimited (mkRateLimitError (rpmDetail cfg.OPENAI_RPM_PER_KEY)
        (parseResetIn e.meta_info)), st)
    | .ok st₁ => invokeCaller http st₁
  else
    match blockAcquire cfg.OPENAI_RPM_PER_KEY st api_key with
    | none => (.blocked, st)
    | some st₁ => invokeCaller http st₁

/-- `call_openai_rate_limited(api_key, ...)` (ai_gateway.py, lines 121–181):
acquire the per-key semaphore when enabled, run the limiter-wrapped body, and
release the slot in the `finally` block.  A body that never returns
(`blocked`) never reaches the `finally`. -/
def call_openai_rate_limited (cfg : Config) (http : HttpResult)
    (api_key : String) (st : GatewayState) : GatewayOutcome × GatewayState :=
  match _get_sem_for cfg.OPENAI_MAX_CONCURRENCY_PER_KEY st.sems api_key with
  | (none, sems₁) => gatewayBody cfg http api_key { st with sems := sems₁ }
  | (some avail, sems₁) =>
    if avail = 0 then (.blocked, { st with sems := sems₁ })
    else
      let stAcq := { st with sems := alistSet sems₁ api_key (avail - 1) }
      let r := gatewayBody cfg http api_key stAcq
      match r.1 with
      | .blocked => (.blocked, r.2)
      | out => (out, { r.2 with sems := alistIncr r.2.sems api_key })

/-- Running a sequence of gateway calls, threading the state. -/
def runCalls (cfg : Config) (calls : List (HttpResult × String))
    (st : GatewayState) : GatewayState :=
  match calls with
  | [] => st
  | (h, k) :: rest => runCalls cfg rest (call_openai_rate_limited cfg h k st).2

/-- Every call in the sequence completes (none ends in an endless wait). -/
def allComplete (cfg : Config) (calls : List (HttpResult × String))
    (st : GatewayState) : Bool :=
  match calls with
  | [] => true
  | (h, k) :: rest =>
    let r := call_openai_rate_limited cfg h k st
    !(isBlocked r.1) && allComplete cfg rest r.2

/-! ## Interleaved executions of the concurrency gate

For the invariant "holders never exceed capacity" the semaphore part of the
gateway is modelled as a small-step transition system: each worker thread runs
the gate prologue/epilogue of `call_openai_rate_limited` (`_get_sem_for`,
`sem.acquire()`, then eventually `sem.release()` in the `finally`), and steps
of distinct threads interleave arbitrarily.  The lock-protected map mutation
in `_get_sem_for` and the semaphore's own atomic decrement/increment are the
atomic steps. -/

/-- Where a thread stands in the gate protocol: before `_get_sem_for`, after
it (semaphore fetched/created), holding a slot, or after `sem.release()`. -/
inductive GatePC : Type
  | idle
  | gotSem
  | holding
  | done
  deriving DecidableEq, Repr

/-- Threads (each with its credential) plus the shared `_sems` map. -/
structure GateSystem where
  threads : List (String × GatePC)
  sems : List (String × Nat)

/-- Atomic steps of the gate protocol under capacity `C`
(`OPENAI_MAX_CONCURRENCY_PER_KEY`). -/
inductive GateStep (C : Nat) : GateSystem → GateSystem → Prop
  | getSem (i : Nat) (k : String) (s : GateSystem)
      (hi : s.threads[i]? = some (k, .idle)) :
      GateStep C s { threads := s.threads.set i (k, .gotSem)
                     sems := (_get_sem_for C s.sems k).2 }
  | acquire (i : Nat) (k : String) (a : Nat) (s : GateSystem)
      (hi : s.threads[i]? = some (k, .gotSem))
      (ha : alistGet s.sems k = some a) (hpos : 0 < a) :
      GateStep C s { threads := s.threads.set i (k, .holding)
                     sems := alistSet s.sems k (a - 1) }
  | release (i : Nat) (k : String) (s : GateSystem)
      (hi : s.threads[i]? = some (k, .holding)) :
      GateStep C s { threads := s.threads.set i (k, .done)
                     sems := alistIncr s.sems k }

/-- An initial system: every thread is before its call, no semaphore created
yet (a fresh process). -/
def GateSystem.Init (s : GateSystem) : Prop :=
  (∀ p ∈ s.threads, p.2 = GatePC.idle) ∧ s.sems = []

/-- The number of simultaneous holders of credential `k`'s gate. -/
def holders (s : GateSystem) (k : String) : Nat :=
  s.threads.countP (fun p => decide (p.1 = k ∧ p.2 = GatePC.holding))

/-- The inductive invariant tying each created semaphore's permit count to
the number of holders of its credential: an uncreated gate has no holder, and
a created one satisfies `permits + holders = capacity`. -/
def GateInv (C : Nat) (s : GateSystem) : Prop :=
  ∀ k, (alistGet s.sems k = none → holders s k = 0) ∧
       (∀ a, alistGet s.sems k = some a → a + holders s k = C)

/-- The outcome the gateway's `try` body derives from the low-level caller's
`Except` result (return value passed through, exception propagated). -/
def outcomeOfCall : Except LLError (List (String × JValue)) → GatewayOutcome
  | .ok r => .ok r
  | .error e => .llError e

/-!
# Theorems

General lemmas about the association-list operations and counting, followed by
one theorem (plus witness or counterexample) per specification claim.
-/

theorem alistGet_set_self {α : Type} (m : List (String × α)) (k : String) (v : α) :
    alistGet (alistSet m k v) k = some v := by
  induction m with
  | nil => simp [alistGet, alistSet]
  | cons hd t ih =>
    obtain ⟨k', v'⟩ := hd
    by_cases h : k' = k <;> simp [alistGet, alistSet, h, ih]

theorem alistGet_set_ne {α : Type} (m : List (String × α)) (k k' : String) (v : α)
    (h : k' ≠ k) : alistGet (alistSet m k v) k' = alistGet m k' := by
  induction m with
  | nil => simp [alistGet, alistSet, Ne.symm h]
  | cons hd t ih =>
    obtain ⟨k₀, v₀⟩ := hd
    by_cases h₀ : k₀ = k
    · subst h₀
      simp [alistGet, alistSet, Ne.symm h]
    · simp [alistGet, alistSet, h₀, ih]

theorem alistSet_set {α : Type} (m : List (String × α)) (k : String) (v w : α) :
    alistSet (alistSet m k v) k w = alistSet m k w := by
  induction m with
  | nil => simp [alistSet]
  | cons hd t ih =>
    obtain ⟨k₀, v₀⟩ := hd
    by_cases h₀ : k₀ = k <;> simp [alistSet, h₀, ih]

theorem alistIncr_set (m : List (String × Nat)) (k : String) (v : Nat) :
    alistIncr (alistSet m k v) k = alistSet m k (v + 1) := by
  induction m with
  | nil => simp [alistSet, alistIncr]
  | cons hd t ih =>
    obtain ⟨k₀, v₀⟩ := hd
    by_cases h₀ : k₀ = k <;> simp [alistSet, alistIncr, h₀, ih]

theorem alistGet_incr_self (m : List (String × Nat)) (k : String) (a : Nat)
    (h : alistGet m k = some a) : alistGet (alistIncr m k) k = some (a + 1) := by
  induction m with
  | nil => simp [alistGet] at h
  | cons hd t ih =>
    obtain ⟨k₀, v₀⟩ := hd
    by_cases h₀ : k₀ = k
    · simp [alistGet, alistIncr, h₀] at h ⊢
      omega
    · simp [alistGet, alistIncr, h₀] at h ⊢
      exact ih h

theorem alistGet_incr_ne (m : List (String × Nat)) (k k' : String)
    (h : k' ≠ k) : alistGet (alistIncr m k) k' = alistGet m k' := by
  induction m with
  | nil => simp [alistIncr]
  | cons hd t ih =>
    obtain ⟨k₀, v₀⟩ := hd
    by_cases h₀ : k₀ = k
    · subst h₀
      simp [alistGet, alistIncr, Ne.symm h]
    · simp [alistGet, alistIncr, h₀, ih]

theorem countP_set_get {α : Type} (l : List α) (i : Nat) (x y : α) (p : α → Bool)
    (h : l[i]? = some x) :
    (l.set i y).countP p + (if p x then 1 else 0)
      = l.countP p + (if p y then 1 else 0) := by
  induction l generalizing i with
  | nil => simp at h
  | cons a t ih =>
    cases i with
    | zero =>
      simp only [List.getElem?_cons_zero, Option.some.injEq] at h
      subst h
      simp only [List.set_cons_zero, List.countP_cons]
      cases hx : p a <;> cases hy : p y <;> simp [hx, hy]
    | succ n =>
      simp only [List.getElem?_cons_succ] at h
      have := ih n h
      simp only [List.set_cons_succ, List.countP_cons]
      omega

/-- C1: the claim that the Retry-After value is the ceiling of every
non-negative reset estimate fails on the code: at the estimate 0.0005 s the
source's `int(retry_after + 0.999)` yields 0, while the ceiling — which the
source's own "Round up to whole seconds" comment also promises — is 1.
Fractional parts below 0.001 are rounded down, not up. -/
theorem C1_retry_after_not_ceiling_at_small_fraction :
    (mkRateLimitError (rpmDetail 480) (some (1/2000))).retryAfterHeader = some 0 ∧
    ⌈(1/2000 : ℚ)⌉ = 1 := by
  constructor
  · norm_num [mkRateLimitError, retryAfterValue]
  · rw [Int.ceil_eq_iff] <;> norm_num

/-- C10: every `OpenAIRateLimitError` the gateway constructs has HTTP status
429, and it carries a Retry-After header exactly when the defensively parsed
reset estimate is present and non-negative; missing or unparsable metadata and
negative estimates still give a 429, just without the header. -/
theorem C10_status_429_and_header_condition (detail : String)
    (meta : Option (Option ℚ)) :
    (mkRateLimitError detail (parseResetIn meta)).status_code = 429 ∧
    ((mkRateLimitError detail (parseResetIn meta)).retryAfterHeader.isSome ↔
      (∃ r, parseResetIn meta = some r ∧ 0 ≤ r)) := by
  refine ⟨rfl, ?_⟩
  cases meta with
  | none => simp [mkRateLimitError, retryAfterValue, parseResetIn]
  | some m =>
    cases m with
    | none => simp [mkRateLimitError, retryAfterValue, parseResetIn]
    | some r =>
      by_cases h : 0 ≤ r <;>
        simp [mkRateLimitError, retryAfterValue, parseResetIn, h]

theorem findInContent_isSome (cs : List JValue) :
    (findInContent cs).isSome = cs.any blockYieldsText := by
  induction cs with
  | nil => rfl
  | cons c rest ih =>
    cases c with
    | obj cf =>
      cases hty : jget cf "type" with
      | str ty =>
        by_cases hm : ty = "output_text" ∨ ty = "text"
        · cases htv : jget cf "text" with
          | str tv => simp [findInContent, blockYieldsText, hty, htv, hm]
          | obj tvf =>
            cases hv : alistGet tvf "value" with
            | some v => simp [findInContent, blockYieldsText, hty, htv, hv, hm]
            | none => simp [findInContent, blockYieldsText, hty, htv, hv, hm, ih]
          | null => simp [findInContent, blockYieldsText, hty, htv, hm, ih]
          | bool b => simp [findInContent, blockYieldsText, hty, htv, hm, ih]
          | num q => simp [findInContent, blockYieldsText, hty, htv, hm, ih]
          | arr xs => simp [findInContent, blockYieldsText, hty, htv, hm, ih]
        · simp [findInContent, blockYieldsText, hty, hm, ih]
      | null => simp [findInContent, blockYieldsText, hty, ih]
      | bool b => simp [findInContent, blockYieldsText, hty, ih]
      | num q => simp [findInContent, blockYieldsText, hty, ih]
      | arr xs => simp [findInContent, blockYieldsText, hty, ih]
      | obj f => simp [findInContent, blockYieldsText, hty, ih]
    | null => simp [findInContent, blockYieldsText, ih]
    | bool b => simp [findInContent, blockYieldsText, ih]
    | num q => simp [findInContent, blockYieldsText, ih]
    | str s => simp [findInContent, blockYieldsText, ih]
    | arr xs => simp [findInContent, blockYieldsText, ih]

theorem extractFromItems_characterize (items : List JValue)
    (h : items.all (fun i => match i with | .obj _ => true | _ => false) = true) :
    ((extractFromItems items).isOk = items.any itemYieldsText) ∧
    (∀ e, extractFromItems items = .error e →
      e = .keyError "No text found in response payload") := by
  induction items with
  | nil =>
    refine ⟨rfl, ?_⟩
    intro e he
    simpa [extractFromItems] using he.symm
  | cons item rest ih =>
    simp only [List.all_cons, Bool.and_eq_true] at h
    obtain ⟨hitem, hrest⟩ := h
    obtain ⟨itemf, rfl⟩ : ∃ f, item = JValue.obj f := by
      cases item <;> simp_all
    have ihr := ih hrest
    cases hc : jget itemf "content" with
    | arr cs =>
      cases hfc : findInContent cs with
      | some s =>
        have hany : cs.any blockYieldsText = true := by
          rw [← findInContent_isSome, hfc]; rfl
        simp [extractFromItems, itemYieldsText, Except.isOk, Except.toBool, hc, hfc, hany]
      | none =>
        have hany : cs.any blockYieldsText = false := by
          rw [← findInContent_isSome, hfc]; rfl
        cases htv : jget itemf "text" with
        | str s => simp [extractFromItems, itemYieldsText, Except.isOk, Except.toBool, hc, hfc, htv, hany]
        | obj tf =>
          cases hv : alistGet tf "value" with
          | some v => simp [extractFromItems, itemYieldsText, Except.isOk, Except.toBool, hc, hfc, htv, hv, hany]
          | none => simpa [extractFromItems, itemYieldsText, hc, hfc, htv, hv, hany] using ihr
        | null => simpa [extractFromItems, itemYieldsText, hc, hfc, htv, hany] using ihr
        | bool b => simpa [extractFromItems, itemYieldsText, hc, hfc, htv, hany] using ihr
        | num q => simpa [extractFromItems, itemYieldsText, hc, hfc, htv, hany] using ihr
        | arr xs => simpa [extractFromItems, itemYieldsText, hc, hfc, htv, hany] using ihr
    | _ =>
      cases htv : jget itemf "text" with
      | str s => simp [extractFromItems, itemYieldsText, Except.isOk, Except.toBool, hc, htv]
      | obj tf =>
        cases hv : alistGet tf "value" with
        | some v => simp [extractFromItems, itemYieldsText, Except.isOk, Except.toBool, hc, htv, hv]
        | none => simpa [extractFromItems, itemYieldsText, hc, htv, hv] using ihr
      | null => simpa [extractFromItems, itemYieldsText, hc, htv] using ihr
      | bool b => simpa [extractFromItems, itemYieldsText, hc, htv] using ihr
      | num q => simpa [extractFromItems, itemYieldsText, hc, htv] using ihr
      | arr xs => simpa [extractFromItems, itemYieldsText, hc, htv] using ihr

/-- C9 (counterexample): on `{"output": [5]}` no known shape matches, yet the
extractor fails with `AttributeError` (the non-dict item hits
`item.get("content")`), not with the "no text found" `KeyError` the claim
promises for that situation. -/
theorem C9_counterexample_nondict_output_item :
    extract_text_from_response [("output", JValue.arr [JValue.num 5])]
        = .error .attributeError ∧
    respHasKnownTextShape [("output", JValue.arr [JValue.num 5])] = false ∧
    PyError.attributeError ≠ PyError.keyError "No text found in response payload" := by
  refine ⟨rfl, rfl, by decide⟩

/-- C9 (amended): for response dictionaries whose `output` field, when
present, is a list of dictionaries, extraction succeeds exactly when one of
the known shapes (direct top-level text field, or nested content blocks)
matches, fails with the "no text found" `KeyError` exactly otherwise, and a
direct top-level `output_text` string takes precedence over everything else.
(On an `output` list containing non-dict items the extractor instead raises
`AttributeError`, per the counterexample.) -/
theorem C9_extract_text_known_shapes (data : List (String × JValue))
    (h : outputItemsAreDicts data = true) :
    ((extract_text_from_response data).isOk = respHasKnownTextShape data) ∧
    (∀ e, extract_text_from_response data = .error e →
      e = .keyError "No text found in response payload") ∧
    (∀ s, jget data "output_text" = .str s →
      extract_text_from_response data = .ok s) := by
  cases hv : jget data "output_text"
  case str s =>
    refine ⟨?_, ?_, ?_⟩
    · simp [extract_text_from_response, respHasKnownTextShape, Except.isOk, Except.toBool, hv]
    · intro e he
      simp [extract_text_from_response, hv] at he
    · intro s' hs'
      cases hs'
      simp [extract_text_from_response, hv]
  case null | bool b | num q | arr xs | obj f =>
    cases hc : jget data "content"
    case str s' =>
      refine ⟨?_, ?_, ?_⟩
      · simp [extract_text_from_response, respHasKnownTextShape, Except.isOk, Except.toBool, hv, hc]
      · intro e he
        simp [extract_text_from_response, hv, hc] at he
      · intro s₂ hs₂
        cases hs₂
    case null | bool b₁ | num q₁ | arr xs₁ | obj f₁ =>
      cases hoo : alistGet data "output"
      case none =>
        refine ⟨?_, ?_, ?_⟩
        · simp [extract_text_from_response, respHasKnownTextShape, Except.isOk, Except.toBool, hv, hc, hoo,
            iterElems, extractFromItems]
        · intro e he
          rw [show extract_text_from_response data
              = Except.error (PyError.keyError "No text found in response payload") from by
            simp [extract_text_from_response, hv, hc, hoo, iterElems, extractFromItems]] at he
          exact (Except.error.inj he).symm
        · intro s₂ hs₂
          cases hs₂
      case some v =>
        cases v
        case arr items =>
          have h' : items.all
              (fun i => match i with | .obj _ => true | _ => false) = true := by
            simpa [outputItemsAreDicts, hoo] using h
          obtain ⟨h₁, h₂⟩ := extractFromItems_characterize items h'
          have hred : extract_text_from_response data = extractFromItems items := by
            simp [extract_text_from_response, hv, hc, hoo, iterElems]
          refine ⟨?_, ?_, ?_⟩
          · rw [hred, h₁]
            simp [respHasKnownTextShape, hv, hc, hoo]
          · intro e he
            exact h₂ e (hred ▸ he)
          · intro s₂ hs₂
            cases hs₂
        case null | bool b₂ | num q₂ | str s₂ | obj f₂ =>
          exfalso
          simp [outputItemsAreDicts, hoo] at h

/-- C9 witness: the amended theorem applied to a concrete response whose
top-level `output_text` field holds a string. -/
theorem C9_extract_text_known_shapes_witness :
    extract_text_from_response [("output_text", JValue.str "hi")] = .ok "hi" :=
  (C9_extract_text_known_shapes [("output_text", JValue.str "hi")] rfl).2.2 "hi" rfl

theorem get_sem_for_none (C : Nat) (sems : List (String × Nat)) (k : String)
    (s' : List (String × Nat)) (h : _get_sem_for C sems k = (none, s')) :
    C = 0 ∧ s' = sems := by
  unfold _get_sem_for at h
  split at h
  · cases h
    exact ⟨by assumption, rfl⟩
  · split at h <;> cases h

theorem get_sem_for_some (C : Nat) (sems : List (String × Nat)) (k : String)
    (a : Nat) (s' : List (String × Nat)) (h : _get_sem_for C sems k = (some a, s')) :
    C ≠ 0 ∧ ((alistGet sems k = some a ∧ s' = sems)
      ∨ (alistGet sems k = none ∧ a = C ∧ s' = alistSet sems k C)) := by
  unfold _get_sem_for at h
  split at h
  · cases h
  · rename_i hC
    refine ⟨hC, ?_⟩
    split at h
    · cases h
      exact Or.inl ⟨by assumption, rfl⟩
    · cases h
      exact Or.inr ⟨by assumption, rfl, rfl⟩

theorem tryAcquire_ok (rpm : Nat) (st : GatewayState) (key : String)
    (st' : GatewayState) (h : tryAcquire rpm st key = .ok st') :
    st'.sems = st.sems ∧ st'.now = st.now ∧ st'.llCalls = st.llCalls := by
  unfold tryAcquire at h
  dsimp only at h
  split at h
  · cases h
  · cases h
    exact ⟨rfl, rfl, rfl⟩

theorem blockAcquire_some (rpm : Nat) (st : GatewayState) (key : String)
    (st' : GatewayState) (h : blockAcquire rpm st key = some st') :
    st'.sems = st.sems ∧ st'.llCalls = st.llCalls := by
  unfold blockAcquire at h
  dsimp only at h
  repeat' split at h
  all_goals try cases h
  all_goals exact ⟨rfl, rfl⟩

theorem blockAcquire_isSome (rpm : Nat) (st : GatewayState) (key : String)
    (hrpm : 0 < rpm) : (blockAcquire rpm st key).isSome = true := by
  unfold blockAcquire
  dsimp only
  by_cases hl : rpm ≤ (pruneWindow st.now ((alistGet st.buckets key).getD [])).length
  · rw [if_pos hl, if_neg (by omega)]
    rfl
  · rw [if_neg hl]
    rfl

theorem invokeCaller_spec (http : HttpResult) (st : GatewayState) :
    (invokeCaller http st).1 = outcomeOfCall (call_openai_api http) ∧
    (invokeCaller http st).2.sems = st.sems ∧
    (invokeCaller http st).2.llCalls = st.llCalls + 1 := by
  unfold invokeCaller outcomeOfCall
  cases call_openai_api http <;> exact ⟨rfl, rfl, rfl⟩

theorem outcomeOfCall_ne_blocked (r : Except LLError (List (String × JValue))) :
    outcomeOfCall r ≠ .blocked := by
  cases r <;> simp [outcomeOfCall]

theorem outcomeOfCall_ne_rateLimited (r : Except LLError (List (String × JValue)))
    (e : OpenAIRateLimitError) : outcomeOfCall r ≠ .rateLimited e := by
  cases r <;> simp [outcomeOfCall]

theorem gatewayBody_sems (cfg : Config) (http : HttpResult) (key : String)
    (st : GatewayState) : (gatewayBody cfg http key st).2.sems = st.sems := by
  unfold gatewayBody
  split
  · cases hta : tryAcquire cfg.OPENAI_RPM_PER_KEY st key with
    | error e => simp [hta]
    | ok st₁ =>
      simp only [hta]
      rw [(invokeCaller_spec http st₁).2.1, (tryAcquire_ok _ _ _ _ hta).1]
  · cases hba : blockAcquire cfg.OPENAI_RPM_PER_KEY st key with
    | none => simp [hba]
    | some st₁ =>
      simp only [hba]
      rw [(invokeCaller_spec http st₁).2.1, (blockAcquire_some _ _ _ _ hba).1]

theorem gatewayBody_spec (cfg : Config) (http : HttpResult) (key : String)
    (st : GatewayState) :
    (((gatewayBody cfg http key st).1 = .blocked
        ∨ (∃ e, (gatewayBody cfg http key st).1 = .rateLimited e))
      ∧ (gatewayBody cfg http key st).2.llCalls = st.llCalls)
    ∨ ((gatewayBody cfg http key st).1 = outcomeOfCall (call_openai_api http)
      ∧ (gatewayBody cfg http key st).2.llCalls = st.llCalls + 1) := by
  unfold gatewayBody
  split
  · cases hta : tryAcquire cfg.OPENAI_RPM_PER_KEY st key with
    | error e =>
      exact Or.inl ⟨Or.inr ⟨mkRateLimitError (rpmDetail cfg.OPENAI_RPM_PER_KEY)
        (parseResetIn e.meta_info), by simp [hta]⟩, by simp [hta]⟩
    | ok st₁ =>
      refine Or.inr ⟨by simp [hta, (invokeCaller_spec http st₁).1], ?_⟩
      simp only [hta]
      rw [(invokeCaller_spec http st₁).2.2, (tryAcquire_ok _ _ _ _ hta).2.2]
  · cases hba : blockAcquire cfg.OPENAI_RPM_PER_KEY st key with
    | none => exact Or.inl ⟨Or.inl (by simp [hba]), by simp [hba]⟩
    | some st₁ =>
      refine Or.inr ⟨by simp [hba, (invokeCaller_spec http st₁).1], ?_⟩
      simp only [hba]
      rw [(invokeCaller_spec http st₁).2.2, (blockAcquire_some _ _ _ _ hba).2]

theorem call_spec (cfg : Config) (http : HttpResult) (key : String)
    (st : GatewayState) :
    (((call_openai_rate_limited cfg http key st).1 = .blocked
        ∨ (∃ e, (call_openai_rate_limited cfg http key st).1 = .rateLimited e))
      ∧ (call_openai_rate_limited cfg http key st).2.llCalls = st.llCalls)
    ∨ ((call_openai_rate_limited cfg http key st).1
          = outcomeOfCall (call_openai_api http)
      ∧ (call_openai_rate_limited cfg http key st).2.llCalls = st.llCalls + 1) := by
  unfold call_openai_rate_limited
  rcases hg : _get_sem_for cfg.OPENAI_MAX_CONCURRENCY_PER_KEY st.sems key with ⟨o, sems₁⟩
  cases o with
  | none => exact gatewayBody_spec cfg http key { st with sems := sems₁ }
  | some avail =>
    dsimp only
    by_cases h0 : avail = 0
    · rw [if_pos h0]
      exact Or.inl ⟨Or.inl rfl, rfl⟩
    · rw [if_neg h0]
      rcases gatewayBody_spec cfg http key
          { st with sems := alistSet sems₁ key (avail - 1) } with ⟨hout, hll⟩ | ⟨hout, hll⟩
      · rcases hout with hb | ⟨e, he⟩
        · rw [hb]
          exact Or.inl ⟨Or.inl rfl, hll⟩
        · rw [he]
          exact Or.inl ⟨Or.inr ⟨e, rfl⟩, hll⟩
      · cases hc : call_openai_api http with
        | ok resp =>
          rw [hc] at hout
          rw [hout]
          dsimp only [outcomeOfCall]
          exact Or.inr ⟨by simp [hc, outcomeOfCall], hll⟩
        | error err =>
          rw [hc] at hout
          rw [hout]
          dsimp only [outcomeOfCall]
          exact Or.inr ⟨by simp [hc, outcomeOfCall], hll⟩

theorem call_preserves_semAvail (cfg : Config) (http : HttpResult) (key : String)
    (st : GatewayState)
    (h : isBlocked (call_openai_rate_limited cfg http key st).1 = false) :
    ∀ k, semAvail cfg (call_openai_rate_limited cfg http key st).2.sems k
      = semAvail cfg st.sems k := by
  intro k
  unfold call_openai_rate_limited at h ⊢
  rcases hg : _get_sem_for cfg.OPENAI_MAX_CONCURRENCY_PER_KEY st.sems key with ⟨o, sems₁⟩
  rw [hg] at h
  cases o with
  | none =>
    obtain ⟨hC, rfl⟩ := get_sem_for_none _ _ _ _ hg
    rw [gatewayBody_sems]
  | some avail =>
    obtain ⟨hC, hcase⟩ := get_sem_for_some _ _ _ _ _ hg
    dsimp only at h ⊢
    by_cases h0 : avail = 0
    · rw [if_pos h0] at h
      exact absurd h (by simp [isBlocked])
    · rw [if_neg h0] at h ⊢
      cases hb : (gatewayBody cfg http key
          { st with sems := alistSet sems₁ key (avail - 1) }).1 with
      | blocked =>
        rw [hb] at h
        simp [isBlocked] at h
      | ok resp | rateLimited e | llError e =>
        dsimp only
        rw [gatewayBody_sems]
        dsimp only
        rw [alistIncr_set, show avail - 1 + 1 = avail by omega]
        rcases hcase with ⟨hget, rfl⟩ | ⟨hget, rfl, rfl⟩
        · by_cases hk : k = key
          · subst hk
            simp [semAvail, alistGet_set_self, hget]
          · simp [semAvail, alistGet_set_ne _ _ _ _ hk]
        · rw [alistSet_set]
          by_cases hk : k = key
          · subst hk
            simp [semAvail, alistGet_set_self, hget]
          · simp [semAvail, alistGet_set_ne _ _ _ _ hk]

/-- C2: the concurrency slot is released exactly once on every exit path.
After any sequence of gateway calls that all complete (normal return,
propagated low-level exception, or rate-limit rejection), every credential's
available-slot count is back at its original value. -/
theorem C2_slot_released_on_every_exit (cfg : Config)
    (calls : List (HttpResult × String)) (st : GatewayState)
    (h : allComplete cfg calls st = true) :
    ∀ k, semAvail cfg (runCalls cfg calls st).sems k = semAvail cfg st.sems k := by
  induction calls generalizing st with
  | nil => intro k; rfl
  | cons c rest ih =>
    obtain ⟨hh, kk⟩ := c
    simp only [allComplete, Bool.and_eq_true, Bool.not_eq_true'] at h
    obtain ⟨h₁, h₂⟩ := h
    intro k
    rw [show runCalls cfg ((hh, kk) :: rest) st
      = runCalls cfg rest (call_openai_rate_limited cfg hh kk st).2 from rfl]
    rw [ih _ h₂ k, call_preserves_semAvail cfg hh kk st h₁ k]

/-- C2 witness: one completed call (a 200 response through a fresh state)
leaves the credential's available-slot count unchanged. -/
theorem C2_slot_released_on_every_exit_witness :
    semAvail ⟨2, true, 3⟩
      (runCalls ⟨2, true, 3⟩ [(HttpResult.response 200 "" [], "A")]
        ⟨[], [], 0, 0⟩).sems "A"
      = semAvail ⟨2, true, 3⟩ (⟨[], [], 0, 0⟩ : GatewayState).sems "A" :=
  C2_slot_released_on_every_exit ⟨2, true, 3⟩
    [(HttpResult.response 200 "" [], "A")] ⟨[], [], 0, 0⟩ rfl "A"

/-- C7: an admitted invocation returns the low-level caller's result verbatim
and propagates its exceptions verbatim; a rate-limit rejection never happens
on a path where the low-level caller was already invoked. -/
theorem C7_passthrough_verbatim (cfg : Config) (http : HttpResult) (key : String)
    (st : GatewayState) :
    ((call_openai_rate_limited cfg http key st).2.llCalls ≠ st.llCalls →
      (call_openai_rate_limited cfg http key st).1
          = outcomeOfCall (call_openai_api http)
        ∧ (call_openai_rate_limited cfg http key st).2.llCalls = st.llCalls + 1) ∧
    (∀ e, (call_openai_rate_limited cfg http key st).1 = .rateLimited e →
      (call_openai_rate_limited cfg http key st).2.llCalls = st.llCalls) ∧
    (∀ resp, (call_openai_rate_limited cfg http key st).1 = .ok resp →
      call_openai_api http = .ok resp) ∧
    (∀ e, (call_openai_rate_limited cfg http key st).1 = .llError e →
      call_openai_api http = .error e) := by
  rcases call_spec cfg http key st with ⟨hout, hll⟩ | ⟨hout, hll⟩
  · refine ⟨fun hne => absurd hll hne, fun e _ => hll, ?_, ?_⟩
    · intro resp hresp
      rcases hout with hb | ⟨e, he⟩
      · rw [hresp] at hb
        cases hb
      · rw [hresp] at he
        cases he
    · intro e' he'
      rcases hout with hb | ⟨e, he⟩
      · rw [he'] at hb
        cases hb
      · rw [he'] at he
        cases he
  · refine ⟨fun _ => ⟨hout, hll⟩, ?_, ?_, ?_⟩
    · intro e he
      rw [hout] at he
      exact absurd he (outcomeOfCall_ne_rateLimited _ e)
    · intro resp hresp
      rw [hout] at hresp
      cases hc : call_openai_api http with
      | ok r =>
        rw [hc] at hresp
        dsimp only [outcomeOfCall] at hresp
        cases hresp
        rfl
      | error err =>
        rw [hc] at hresp
        dsimp only [outcomeOfCall] at hresp
        cases hresp
    · intro e he
      rw [hout] at he
      cases hc : call_openai_api http with
      | ok r =>
        rw [hc] at he
        dsimp only [outcomeOfCall] at he
        cases he
      | error err =>
        rw [hc] at he
        dsimp only [outcomeOfCall] at he
        cases he
        rfl

/-- C7 witness: on an admitted call the gateway's outcome is exactly the
low-level caller's. -/
theorem C7_passthrough_verbatim_witness :
    (call_openai_rate_limited ⟨2, true, 3⟩ (HttpResult.response 200 "" []) "A"
        ⟨[], [], 0, 0⟩).1
      = outcomeOfCall (call_openai_api (HttpResult.response 200 "" []))
    ∧ (call_openai_rate_limited ⟨2, true, 3⟩ (HttpResult.response 200 "" []) "A"
        ⟨[], [], 0, 0⟩).2.llCalls = 0 + 1 :=
  (C7_passthrough_verbatim ⟨2, true, 3⟩ (HttpResult.response 200 "" []) "A"
    ⟨[], [], 0, 0⟩).1 (by decide)

theorem gatewayBody_block_no_reject (cfg : Config) (http : HttpResult)
    (key : String) (st : GatewayState) (hbm : cfg.OPENAI_RPM_FAIL_FAST = false) :
    ∀ e, (gatewayBody cfg http key st).1 ≠ .rateLimited e := by
  intro e
  unfold gatewayBody
  rw [hbm]
  simp only [Bool.false_eq_true, if_false]
  cases hba : blockAcquire cfg.OPENAI_RPM_PER_KEY st key with
  | none => simp
  | some st₁ =>
    simp only
    rw [(invokeCaller_spec http st₁).1]
    exact outcomeOfCall_ne_rateLimited _ e

theorem call_block_no_reject (cfg : Config) (http : HttpResult) (key : String)
    (st : GatewayState) (hbm : cfg.OPENAI_RPM_FAIL_FAST = false) :
    ∀ e, (call_openai_rate_limited cfg http key st).1 ≠ .rateLimited e := by
  intro e
  unfold call_openai_rate_limited
  rcases hg : _get_sem_for cfg.OPENAI_MAX_CONCURRENCY_PER_KEY st.sems key with ⟨o, sems₁⟩
  cases o with
  | none => exact gatewayBody_block_no_reject cfg http key _ hbm e
  | some avail =>
    dsimp only
    by_cases h0 : avail = 0
    · rw [if_pos h0]
      simp
    · rw [if_neg h0]
      cases hb : (gatewayBody cfg http key
          { st with sems := alistSet sems₁ key (avail - 1) }).1 with
      | blocked => simp
      | rateLimited e' => exact absurd hb (gatewayBody_block_no_reject cfg http key _ hbm e')
      | ok resp => simp
      | llError err => simp

/-- C5: with fail-fast disabled (BLOCK mode) the gateway never raises
`RateLimitExceeded`; with a positive window capacity the limiter step always
admits after a delay, so window exhaustion only postpones the call. -/
theorem C5_block_mode_never_raises (cfg : Config) (http : HttpResult)
    (key : String) (st : GatewayState) (hbm : cfg.OPENAI_RPM_FAIL_FAST = false) :
    (∀ e, (call_openai_rate_limited cfg http key st).1 ≠ .rateLimited e) ∧
    (0 < cfg.OPENAI_RPM_PER_KEY →
      (blockAcquire cfg.OPENAI_RPM_PER_KEY st key).isSome = true) :=
  ⟨call_block_no_reject cfg http key st hbm,
   fun hrpm => blockAcquire_isSome cfg.OPENAI_RPM_PER_KEY st key hrpm⟩

/-- C5 witness: on a window already at capacity, a BLOCK-mode call is not
rejected and the limiter step still admits. -/
theorem C5_block_mode_never_raises_witness :
    ((call_openai_rate_limited ⟨2, false, 3⟩ (HttpResult.response 200 "" []) "A"
        ⟨[], [("A", [990, 995])], 1000, 0⟩).1
      ≠ .rateLimited (mkRateLimitError (rpmDetail 2) none)) ∧
    (blockAcquire 2 ⟨[], [("A", [990, 995])], 1000, 0⟩ "A").isSome = true :=
  ⟨(C5_block_mode_never_raises ⟨2, false, 3⟩ (HttpResult.response 200 "" []) "A"
      ⟨[], [("A", [990, 995])], 1000, 0⟩ rfl).1 (mkRateLimitError (rpmDetail 2) none),
   (C5_block_mode_never_raises ⟨2, false, 3⟩ (HttpResult.response 200 "" []) "A"
      ⟨[], [("A", [990, 995])], 1000, 0⟩ rfl).2 (by decide)⟩

theorem gatewayBody_not_blocked (cfg : Config) (http : HttpResult) (key : String)
    (st : GatewayState) (hrpm : 0 < cfg.OPENAI_RPM_PER_KEY) :
    isBlocked (gatewayBody cfg http key st).1 = false := by
  unfold gatewayBody
  split
  · cases hta : tryAcquire cfg.OPENAI_RPM_PER_KEY st key with
    | error e => simp [hta, isBlocked]
    | ok st₁ =>
      simp only [hta]
      rw [(invokeCaller_spec http st₁).1]
      cases call_openai_api http <;> simp [outcomeOfCall, isBlocked]
  · cases hba : blockAcquire cfg.OPENAI_RPM_PER_KEY st key with
    | none =>
      have := blockAcquire_isSome cfg.OPENAI_RPM_PER_KEY st key hrpm
      rw [hba] at this
      cases this
    | some st₁ =>
      simp only [hba]
      rw [(invokeCaller_spec http st₁).1]
      cases call_openai_api http <;> simp [outcomeOfCall, isBlocked]

/-- C8: with `max_concurrency` configured as 0 the gate is disabled — no
semaphore is created (`_get_sem_for` returns `None` and leaves the map
untouched), the whole call leaves the semaphore map unchanged, and the call
never blocks (given a positive window capacity, the limiter cannot block it
either). -/
theorem C8_concurrency_gate_disabled (cfg : Config) (http : HttpResult)
    (key : String) (st : GatewayState)
    (h0 : cfg.OPENAI_MAX_CONCURRENCY_PER_KEY = 0)
    (hrpm : 0 < cfg.OPENAI_RPM_PER_KEY) :
    _get_sem_for cfg.OPENAI_MAX_CONCURRENCY_PER_KEY st.sems key = (none, st.sems) ∧
    (call_openai_rate_limited cfg http key st).2.sems = st.sems ∧
    isBlocked (call_openai_rate_limited cfg http key st).1 = false := by
  have hget : _get_sem_for cfg.OPENAI_MAX_CONCURRENCY_PER_KEY st.sems key
      = (none, st.sems) := by
    unfold _get_sem_for
    rw [h0]
    simp
  refine ⟨hget, ?_, ?_⟩
  · unfold call_openai_rate_limited
    rw [hget]
    exact gatewayBody_sems cfg http key { st with sems := st.sems }
  · unfold call_openai_rate_limited
    rw [hget]
    exact gatewayBody_not_blocked cfg http key { st with sems := st.sems } hrpm

/-- C8 witness: a concrete disabled-gate call creates no semaphore, leaves
the map unchanged and does not block. -/
theorem C8_concurrency_gate_disabled_witness :
    _get_sem_for 0 (⟨[], [], 0, 0⟩ : GatewayState).sems "A" = (none, []) ∧
    (call_openai_rate_limited ⟨2, true, 0⟩ (HttpResult.response 200 "" []) "A"
        ⟨[], [], 0, 0⟩).2.sems = ([] : List (String × Nat)) ∧
    isBlocked (call_openai_rate_limited ⟨2, true, 0⟩ (HttpResult.response 200 "" []) "A"
        ⟨[], [], 0, 0⟩).1 = false :=
  C8_concurrency_gate_disabled ⟨2, true, 0⟩ (HttpResult.response 200 "" []) "A"
    ⟨[], [], 0, 0⟩ rfl (by decide)

theorem invokeCaller_buckets (http : HttpResult) (st : GatewayState) :
    (invokeCaller http st).2.buckets = st.buckets := by
  unfold invokeCaller
  cases call_openai_api http <;> rfl

theorem tryAcquire_buckets_frame (rpm : Nat) (st : GatewayState) (key : String)
    (st' : GatewayState) (h : tryAcquire rpm st key = .ok st') (b : String)
    (hne : b ≠ key) : alistGet st'.buckets b = alistGet st.buckets b := by
  unfold tryAcquire at h
  dsimp only at h
  split at h
  · cases h
  · cases h
    exact alistGet_set_ne _ _ _ _ hne

theorem blockAcquire_buckets_frame (rpm : Nat) (st : GatewayState) (key : String)
    (st' : GatewayState) (h : blockAcquire rpm st key = some st') (b : String)
    (hne : b ≠ key) : alistGet st'.buckets b = alistGet st.buckets b := by
  unfold blockAcquire at h
  dsimp only at h
  repeat' split at h
  all_goals try cases h
  all_goals exact alistGet_set_ne _ _ _ _ hne

theorem gatewayBody_buckets_frame (cfg : Config) (http : HttpResult)
    (key : String) (st : GatewayState) (b : String) (hne : b ≠ key) :
    alistGet (gatewayBody cfg http key st).2.buckets b = alistGet st.buckets b := by
  unfold gatewayBody
  split
  · cases hta : tryAcquire cfg.OPENAI_RPM_PER_KEY st key with
    | error e => simp [hta]
    | ok st₁ =>
      simp only [hta]
      rw [invokeCaller_buckets]
      exact tryAcquire_buckets_frame _ _ _ _ hta b hne
  · cases hba : blockAcquire cfg.OPENAI_RPM_PER_KEY st key with
    | none => simp [hba]
    | some st₁ =>
      simp only [hba]
      rw [invokeCaller_buckets]
      exact blockAcquire_buckets_frame _ _ _ _ hba b hne

/-- C6: gateway invocations with credential A leave every other credential
B's rate-limit window contents and semaphore entry exactly as they were —
budgets and gates are partitioned strictly per credential. -/
theorem C6_credential_isolation (cfg : Config) (http : HttpResult)
    (a b : String) (st : GatewayState) (hne : b ≠ a) :
    alistGet (call_openai_rate_limited cfg http a st).2.sems b
        = alistGet st.sems b ∧
    alistGet (call_openai_rate_limited cfg http a st).2.buckets b
        = alistGet st.buckets b := by
  unfold call_openai_rate_limited
  rcases hg : _get_sem_for cfg.OPENAI_MAX_CONCURRENCY_PER_KEY st.sems a with ⟨o, sems₁⟩
  have hsem₁ : alistGet sems₁ b = alistGet st.sems b := by
    rcases o with _ | avail
    · obtain ⟨_, rfl⟩ := get_sem_for_none _ _ _ _ hg
      rfl
    · obtain ⟨_, hcase⟩ := get_sem_for_some _ _ _ _ _ hg
      rcases hcase with ⟨_, rfl⟩ | ⟨_, _, rfl⟩
      · rfl
      · exact alistGet_set_ne _ _ _ _ hne
  cases o with
  | none =>
    constructor
    · rw [gatewayBody_sems]
      exact hsem₁
    · exact gatewayBody_buckets_frame cfg http a { st with sems := sems₁ } b hne
  | some avail =>
    dsimp only
    by_cases h0 : avail = 0
    · rw [if_pos h0]
      exact ⟨hsem₁, rfl⟩
    · rw [if_neg h0]
      cases hb : (gatewayBody cfg http a
          { st with sems := alistSet sems₁ a (avail - 1) }).1 with
      | blocked =>
        dsimp only
        constructor
        · rw [gatewayBody_sems]
          dsimp only
          rw [alistGet_set_ne _ _ _ _ hne]
          exact hsem₁
        · exact gatewayBody_buckets_frame cfg http a _ b hne
      | ok resp | rateLimited e | llError e =>
        dsimp only
        constructor
        · rw [alistGet_incr_ne _ _ _ hne, gatewayBody_sems]
          dsimp only
          rw [alistGet_set_ne _ _ _ _ hne]
          exact hsem₁
        · exact gatewayBody_buckets_frame cfg http a _ b hne

/-- C6 witness: a call with credential "A" leaves credential "B"'s semaphore
entry and window contents unchanged. -/
theorem C6_credential_isolation_witness :
    alistGet (call_openai_rate_limited ⟨2, true, 3⟩ (HttpResult.response 200 "" [])
        "A" ⟨[("B", 1)], [("B", [5])], 0, 0⟩).2.sems "B"
      = alistGet [("B", 1)] "B" ∧
    alistGet (call_openai_rate_limited ⟨2, true, 3⟩ (HttpResult.response 200 "" [])
        "A" ⟨[("B", 1)], [("B", [5])], 0, 0⟩).2.buckets "B"
      = alistGet [("B", [5])] "B" :=
  C6_credential_isolation ⟨2, true, 3⟩ (HttpResult.response 200 "" []) "A" "B"
    ⟨[("B", 1)], [("B", [5])], 0, 0⟩ (by decide)

theorem gatewayBody_reject (cfg : Config) (http : HttpResult) (key : String)
    (st : GatewayState)
    (hff : cfg.OPENAI_RPM_FAIL_FAST = true)
    (hrpm : 0 < cfg.OPENAI_RPM_PER_KEY)
    (hfull : cfg.OPENAI_RPM_PER_KEY
      ≤ (pruneWindow st.now ((alistGet st.buckets key).getD [])).length) :
    ∃ r : ℚ, 0 ≤ r ∧
      gatewayBody cfg http key st
        = (.rateLimited (mkRateLimitError (rpmDetail cfg.OPENAI_RPM_PER_KEY)
            (some r)), st) := by
  have hne : pruneWindow st.now ((alistGet st.buckets key).getD []) ≠ [] := by
    intro hnil
    rw [hnil] at hfull
    simp at hfull
    omega
  have hmem : (pruneWindow st.now ((alistGet st.buckets key).getD [])).headD st.now
      ∈ pruneWindow st.now ((alistGet st.buckets key).getD []) := by
    cases hi : pruneWindow st.now ((alistGet st.buckets key).getD []) with
    | nil => exact absurd hi hne
    | cons x t => simp [List.headD]
  have hgt : st.now - 60
      < (pruneWindow st.now ((alistGet st.buckets key).getD [])).headD st.now := by
    have := (List.mem_filter.1 hmem).2
    exact of_decide_eq_true this
  refine ⟨(pruneWindow st.now ((alistGet st.buckets key).getD [])).headD st.now
    + 60 - st.now, by linarith, ?_⟩
  unfold gatewayBody tryAcquire
  rw [hff]
  dsimp only
  rw [if_pos hfull]
  rfl

theorem call_reject (cfg : Config) (http : HttpResult) (key : String)
    (st : GatewayState)
    (hff : cfg.OPENAI_RPM_FAIL_FAST = true)
    (hrpm : 0 < cfg.OPENAI_RPM_PER_KEY)
    (hfull : cfg.OPENAI_RPM_PER_KEY
      ≤ (pruneWindow st.now ((alistGet st.buckets key).getD [])).length)
    (hslot : cfg.OPENAI_MAX_CONCURRENCY_PER_KEY = 0 ∨ 0 < semAvail cfg st.sems key) :
    ∃ r : ℚ, 0 ≤ r ∧
      (call_openai_rate_limited cfg http key st).1
        = .rateLimited (mkRateLimitError (rpmDetail cfg.OPENAI_RPM_PER_KEY) (some r)) ∧
      (call_openai_rate_limited cfg http key st).2.llCalls = st.llCalls := by
  unfold call_openai_rate_limited
  rcases hg : _get_sem_for cfg.OPENAI_MAX_CONCURRENCY_PER_KEY st.sems key with ⟨o, sems₁⟩
  cases o with
  | none =>
    obtain ⟨hC, rfl⟩ := get_sem_for_none _ _ _ _ hg
    dsimp only
    obtain ⟨r, hr, heq⟩ := gatewayBody_reject cfg http key
      { st with sems := st.sems } hff hrpm hfull
    exact ⟨r, hr, by rw [heq], by rw [heq]⟩
  | some avail =>
    obtain ⟨hC, hcase⟩ := get_sem_for_some _ _ _ _ _ hg
    have h0 : avail ≠ 0 := by
      rcases hcase with ⟨hget, _⟩ | ⟨_, rfl, _⟩
      · rcases hslot with hd | hpos
        · exact absurd hd hC
        · rw [semAvail, hget] at hpos
          simp only [Option.getD_some] at hpos
          omega
      · exact hC
    dsimp only
    rw [if_neg h0]
    obtain ⟨r, hr, heq⟩ := gatewayBody_reject cfg http key
      { st with sems := alistSet sems₁ key (avail - 1) } hff hrpm hfull
    rw [heq]
    exact ⟨r, hr, rfl, rfl⟩

/-- C4: in FAIL_FAST mode, when the credential's window is at capacity and a
gate slot is obtainable, the gateway raises `RateLimitExceeded` with the
configured detail string and a retry hint, the low-level caller is never
invoked, and the concurrency slot is back to its pre-call value. -/
theorem C4_fail_fast_rejects_cleanly (cfg : Config) (http : HttpResult)
    (key : String) (st : GatewayState)
    (hff : cfg.OPENAI_RPM_FAIL_FAST = true)
    (hrpm : 0 < cfg.OPENAI_RPM_PER_KEY)
    (hfull : cfg.OPENAI_RPM_PER_KEY
      ≤ (pruneWindow st.now ((alistGet st.buckets key).getD [])).length)
    (hslot : cfg.OPENAI_MAX_CONCURRENCY_PER_KEY = 0 ∨ 0 < semAvail cfg st.sems key) :
    ∃ e, (call_openai_rate_limited cfg http key st).1 = .rateLimited e
      ∧ e.status_code = 429
      ∧ e.detail = rpmDetail cfg.OPENAI_RPM_PER_KEY
      ∧ e.retryAfterHeader.isSome = true
      ∧ (call_openai_rate_limited cfg http key st).2.llCalls = st.llCalls
      ∧ (∀ k, semAvail cfg (call_openai_rate_limited cfg http key st).2.sems k
          = semAvail cfg st.sems k) := by
  obtain ⟨r, hr, hout, hll⟩ := call_reject cfg http key st hff hrpm hfull hslot
  refine ⟨_, hout, rfl, rfl, ?_, hll, ?_⟩
  · simp [mkRateLimitError, retryAfterValue, hr]
  · exact call_preserves_semAvail cfg http key st (by rw [hout]; rfl)

/-- C4 witness: a concrete FAIL_FAST rejection on a full window (capacity 2,
two in-window timestamps): 429 with detail and retry hint, caller not
invoked, slot restored. -/
theorem C4_fail_fast_rejects_cleanly_witness :
    ∃ e, (call_openai_rate_limited ⟨2, true, 3⟩ (HttpResult.response 200 "" []) "A"
        ⟨[], [("A", [990, 995])], 1000, 0⟩).1 = .rateLimited e
      ∧ e.status_code = 429
      ∧ e.detail = rpmDetail 2
      ∧ e.retryAfterHeader.isSome = true
      ∧ (call_openai_rate_limited ⟨2, true, 3⟩ (HttpResult.response 200 "" []) "A"
          ⟨[], [("A", [990, 995])], 1000, 0⟩).2.llCalls = 0
      ∧ (∀ k, semAvail ⟨2, true, 3⟩
            (call_openai_rate_limited ⟨2, true, 3⟩ (HttpResult.response 200 "" []) "A"
              ⟨[], [("A", [990, 995])], 1000, 0⟩).2.sems k
          = semAvail ⟨2, true, 3⟩ ([] : List (String × Nat)) k) :=
  C4_fail_fast_rejects_cleanly ⟨2, true, 3⟩ (HttpResult.response 200 "" []) "A"
    ⟨[], [("A", [990, 995])], 1000, 0⟩ rfl (by decide)
    (by norm_num [pruneWindow, List.filter, alistGet])
    (Or.inr (by decide))

theorem get_sem_for_snd (C : Nat) (sems : List (String × Nat)) (k : String) :
    (_get_sem_for C sems k).2 = sems ∨
    (C ≠ 0 ∧ alistGet sems k = none ∧ (_get_sem_for C sems k).2 = alistSet sems k C) := by
  by_cases hC : C = 0
  · refine Or.inl ?_
    unfold _get_sem_for
    rw [if_pos hC]
  · cases hget : alistGet sems k with
    | some n =>
      refine Or.inl ?_
      unfold _get_sem_for
      rw [if_neg hC, hget]
    | none =>
      refine Or.inr ⟨hC, rfl, ?_⟩
      unfold _get_sem_for
      rw [if_neg hC, hget]

theorem holders_le_of_inv (C : Nat) (s : GateSystem) (k : String)
    (hinv : GateInv C s) : holders s k ≤ C := by
  obtain ⟨h₁, h₂⟩ := hinv k
  cases hget : alistGet s.sems k with
  | none =>
    rw [h₁ hget]
    exact Nat.zero_le C
  | some a =>
    have := h₂ a hget
    omega

theorem gateInv_init (C : Nat) (s : GateSystem) (h : s.Init) : GateInv C s := by
  obtain ⟨hpc, hsems⟩ := h
  intro k
  constructor
  · intro _
    rw [holders]
    rw [List.countP_eq_zero]
    intro p hp
    simp only [decide_eq_true_eq, not_and]
    intro _
    rw [hpc p hp]
    intro hcon
    cases hcon
  · intro a ha
    rw [hsems] at ha
    cases ha

theorem gateInv_step (C : Nat) (s s' : GateSystem) (hs : GateStep C s s')
    (hinv : GateInv C s) : GateInv C s' := by
  cases hs with
  | getSem i k _ hi =>
    intro k'
    have hc := countP_set_get s.threads i (k, GatePC.idle) (k, GatePC.gotSem)
      (fun p => decide (p.1 = k' ∧ p.2 = GatePC.holding)) hi
    simp [-Bool.decide_and] at hc
    rcases get_sem_for_snd C s.sems k with hsnd | ⟨hC, hnone, hsnd⟩
    · constructor
      · intro hn
        try dsimp only at hn
        rw [hsnd] at hn
        have h₁ := (hinv k').1 hn
        simp only [holders] at h₁ ⊢
        try dsimp only
        omega
      · intro a ha
        try dsimp only at ha
        rw [hsnd] at ha
        have h₂ := (hinv k').2 a ha
        simp only [holders] at h₂ ⊢
        try dsimp only
        omega
    · constructor
      · intro hn
        try dsimp only at hn
        rw [hsnd] at hn
        by_cases hk : k' = k
        · subst hk
          rw [alistGet_set_self] at hn
          cases hn
        · rw [alistGet_set_ne _ _ _ _ hk] at hn
          have h₁ := (hinv k').1 hn
          simp only [holders] at h₁ ⊢
          try dsimp only
          omega
      · intro a ha
        try dsimp only at ha
        rw [hsnd] at ha
        by_cases hk : k' = k
        · subst hk
          rw [alistGet_set_self] at ha
          cases ha
          have h₁ := (hinv k').1 hnone
          simp only [holders] at h₁ ⊢
          try dsimp only
          omega
        · rw [alistGet_set_ne _ _ _ _ hk] at ha
          have h₂ := (hinv k').2 a ha
          simp only [holders] at h₂ ⊢
          try dsimp only
          omega
  | acquire i k a _ hi ha hpos =>
    intro k'
    have hc := countP_set_get s.threads i (k, GatePC.gotSem) (k, GatePC.holding)
      (fun p => decide (p.1 = k' ∧ p.2 = GatePC.holding)) hi
    simp [-Bool.decide_and] at hc
    by_cases hk : k' = k
    · subst hk
      constructor
      · intro hn
        try dsimp only at hn
        rw [alistGet_set_self] at hn
        cases hn
      · intro a' ha'
        try dsimp only at ha'
        rw [alistGet_set_self] at ha'
        cases ha'
        have h₂ := (hinv k').2 a ha
        simp only [holders] at h₂ ⊢
        try dsimp only
        simp [-Bool.decide_and] at hc
        omega
    · have hne : ¬(k = k') := fun h => hk h.symm
      constructor
      · intro hn
        try dsimp only at hn
        rw [alistGet_set_ne _ _ _ _ hk] at hn
        have h₁ := (hinv k').1 hn
        simp only [holders] at h₁ ⊢
        try dsimp only
        simp [-Bool.decide_and, hne] at hc
        omega
      · intro a' ha'
        try dsimp only at ha'
        rw [alistGet_set_ne _ _ _ _ hk] at ha'
        have h₂ := (hinv k').2 a' ha'
        simp only [holders] at h₂ ⊢
        try dsimp only
        simp [-Bool.decide_and, hne] at hc
        omega
  | release i k _ hi =>
    intro k'
    have hc := countP_set_get s.threads i (k, GatePC.holding) (k, GatePC.done)
      (fun p => decide (p.1 = k' ∧ p.2 = GatePC.holding)) hi
    simp [-Bool.decide_and] at hc
    by_cases hk : k' = k
    · subst hk
      have hposk : 0 < holders s k' := by
        rw [holders]
        rw [List.countP_pos_iff]
        exact ⟨(k', GatePC.holding), List.getElem?_mem hi, by simp⟩
      cases hget : alistGet s.sems k' with
      | none =>
        have := (hinv k').1 hget
        omega
      | some a =>
        constructor
        · intro hn
          try dsimp only at hn
          rw [alistGet_incr_self _ _ _ hget] at hn
          cases hn
        · intro a' ha'
          try dsimp only at ha'
          rw [alistGet_incr_self _ _ _ hget] at ha'
          cases ha'
          have h₂ := (hinv k').2 a hget
          simp only [holders] at h₂ hposk ⊢
          try dsimp only
          simp [-Bool.decide_and] at hc
          omega
    · have hne : ¬(k = k') := fun h => hk h.symm
      constructor
      · intro hn
        try dsimp only at hn
        rw [alistGet_incr_ne _ _ _ hk] at hn
        have h₁ := (hinv k').1 hn
        simp only [holders] at h₁ ⊢
        try dsimp only
        simp [-Bool.decide_and, hne] at hc
        omega
      · intro a' ha'
        try dsimp only at ha'
        rw [alistGet_incr_ne _ _ _ hk] at ha'
        have h₂ := (hinv k').2 a' ha'
        simp only [holders] at h₂ ⊢
        try dsimp only
        simp [-Bool.decide_and, hne] at hc
        omega

theorem gateInv_reachable (C : Nat) (s₀ s : GateSystem) (h₀ : s₀.Init)
    (hr : Relation.ReflTransGen (GateStep C) s₀ s) : GateInv C s := by
  induction hr with
  | refl => exact gateInv_init C s₀ h₀
  | tail _ hstep ih => exact gateInv_step C _ _ hstep ih

/-- C3: with capacity C > 0, in every state reachable from a fresh process by
any interleaving of gate steps, the number of simultaneous holders of any
credential's gate never exceeds C. -/
theorem C3_holders_never_exceed_capacity (C : Nat) (hC : 0 < C)
    (s₀ s : GateSystem) (h₀ : s₀.Init)
    (hr : Relation.ReflTransGen (GateStep C) s₀ s) (k : String) :
    holders s k ≤ C :=
  holders_le_of_inv C s k (gateInv_reachable C s₀ s h₀ hr)

/-- C3 witness: the bound instantiated at capacity 1 in an initial one-thread
system. -/
theorem C3_holders_never_exceed_capacity_witness :
    holders ⟨[("A", GatePC.idle)], []⟩ "A" ≤ 1 :=
  C3_holders_never_exceed_capacity 1 (by decide) ⟨[("A", GatePC.idle)], []⟩
    ⟨[("A", GatePC.idle)], []⟩ ⟨by decide, rfl⟩ Relation.ReflTransGen.refl "A"

end AIGateway
